import Mathlib

/-!
Verification development for the kuma control-plane generation code.

This file gives a shallow embedding, in Lean, of three parts of the
repository and proves properties of them:

* the dataplane metadata decoder (`DataplaneMetadataFromXdsMetadata` and
  `uint32Metadata` from the xds metadata file),
* the TLS context synthesizer (`CreateDownstreamTlsContext`,
  `CreateUpstreamTlsContext` and the SAN matcher constructors),
* the gateway route table builder (`GenerateHost`, `makeRouteEntry`,
  `makeRouteMatch` from `pkg/plugins/runtime/gateway/gateway_route_generator.go`).

Go data is translated as follows: protobuf `structpb.Struct` values become an
inductive `PbValue` with association lists for maps; Go `uint32` becomes `Nat`
with an explicit reduction modulo `2 ^ 32` where the Go code converts; nil
pointers become `Option`; a Go panic escaping a function is modelled as an
`Except.error` outcome.  Go map iteration order is unspecified; the embedding
realizes the maps as insertion-ordered association lists with
overwrite-on-insert, a deterministic refinement; the theorems proved below are
insensitive to the iteration order (they count entries or quantify over all of
them).
-/

namespace KumaSpec

/-! ## Protobuf value model -/

/-- Model of `structpb.Value`: a dynamically typed protobuf value. -/
inductive PbValue where
  | nullValue : PbValue
  | numberValue (n : Int) : PbValue
  | stringValue (s : String) : PbValue
  | boolValue (b : Bool) : PbValue
  | structValue (fields : List (String × PbValue)) : PbValue
  | listValue (xs : List PbValue) : PbValue

/-- Model of the protobuf getter `Value.GetStringValue`: the string payload, or
the empty string when the value is of a different kind. -/
def PbValue.getStringValue : PbValue → String
  | .stringValue s => s
  | _ => ""

/-- Model of the protobuf getter `Value.GetStructValue`: the struct fields, or
`none` (Go nil) when the value is of a different kind. -/
def PbValue.getStructValue : PbValue → Option (List (String × PbValue))
  | .structValue fields => some fields
  | _ => none

/-- Lookup in a protobuf struct field map (Go `xdsMetadata.Fields[field]`).
Go maps have unique keys; the association list returns the first match. -/
def pbLookup : List (String × PbValue) → String → Option PbValue
  | [], _ => none
  | (k, v) :: rest, field => if k = field then some v else pbLookup rest field

/-! ## Metadata field name constants (from the source) -/

def fieldDataplaneToken : String := "dataplane.token"

def fieldDataplaneAdminPort : String := "dataplane.admin.port"

def fieldDataplaneDNSPort : String := "dataplane.dns.port"

def fieldDataplaneDNSEmptyPort : String := "dataplane.dns.empty.port"

def fieldDataplaneDataplaneResource : String := "dataplane.resource"

def fieldDynamicMetadata : String := "dynamicMetadata"

def fieldDataplaneProxyType : String := "dataplane.proxyType"

def fieldVersion : String := "version"

/-! ## Go strconv.Atoi model -/

/-- Decimal digit accumulation for `goAtoi`; fails on any non-digit. -/
def digitsToNatAux : List Char → Nat → Option Nat
  | [], acc => some acc
  | c :: rest, acc =>
    if c.isDigit then digitsToNatAux rest (acc * 10 + (c.toNat - 48)) else none

/-- Model of Go `strconv.Atoi` on a 64-bit platform: an optional sign followed
by at least one decimal digit, with the value required to fit in `int64`;
any other input (including an out-of-int64-range numeral) is a parse error. -/
def goAtoi (s : String) : Option Int :=
  let signAndDigits : Bool × List Char :=
    match s.data with
    | '-' :: rest => (true, rest)
    | '+' :: rest => (false, rest)
    | cs => (false, cs)
  match signAndDigits with
  | (_, []) => none
  | (neg, ds) =>
    match digitsToNatAux ds 0 with
    | none => none
    | some n =>
      let v : Int := if neg then -(n : Int) else (n : Int)
      if v < -(2 ^ 63) then none
      else if (2 ^ 63 - 1 : Int) < v then none
      else some v

/-- Embedding of `uint32Metadata` (source part_000 lines 177-188): look the
field up, parse its string payload with `strconv.Atoi`, return 0 when the
field is absent or the parse fails, and otherwise the Go conversion
`uint32(port)`, which is reduction modulo `2 ^ 32`. -/
def uint32Metadata (xdsMetadata : List (String × PbValue)) (field : String) : Nat :=
  match pbLookup xdsMetadata field with
  | none => 0
  | some value =>
    match goAtoi value.getStringValue with
    | none => 0
    | some port => (port % 4294967296).toNat

/-! ## Core resource model -/

/-- Model of `model.Resource` restricted to what the decoder distinguishes:
the two accepted typed variants and a representative third resource kind. -/
inductive CoreResource where
  | dataplaneRes (raw : String) : CoreResource
  | zoneIngressRes (raw : String) : CoreResource
  | meshRes (raw : String) : CoreResource

/-- Modelled from the spec: `rest.UnmarshallToCore` is not under `src/` (only
its caller is).  Per the spec, the embedded serialized resource decodes into a
typed core resource or fails on malformed input; following the Go convention
the failure case carries no resource.  The concrete encoding used here tags
the payload with its type name. -/
def UnmarshallToCore (b : String) : Except String CoreResource :=
  if List.isPrefixOf "type: Dataplane".data b.data then
    Except.ok (CoreResource.dataplaneRes b)
  else if List.isPrefixOf "type: ZoneIngress".data b.data then
    Except.ok (CoreResource.zoneIngressRes b)
  else if List.isPrefixOf "type: Mesh".data b.data then
    Except.ok (CoreResource.meshRes b)
  else Except.error "invalid resource"

/-- Modelled from the spec: `mesh_proto.Version` is not under `src/`; the spec
describes it as a three-part version record. -/
structure MeshVersion where
  kumaDp : String := ""
  envoy : String := ""
  dependencies : String := ""

/-- Modelled from the spec: `util_proto.ToTyped` is not under `src/`; it
decodes a protobuf struct into the typed version record and fails on a
malformed nested value (here: a version part that is present but not a
string). -/
def toTypedVersion (fields : List (String × PbValue)) : Option MeshVersion :=
  let part := fun (k : String) =>
    match pbLookup fields k with
    | none => some ""
    | some (PbValue.stringValue s) => some s
    | some _ => none
  match part "kumaDp", part "envoy", part "dependencies" with
  | some a, some b, some c => some { kumaDp := a, envoy := b, dependencies := c }
  | _, _, _ => none

/-! ## DataplaneMetadata and its accessors (source part_000 lines 45-127) -/

/-- Embedding of the `DataplaneMetadata` struct.  Go zero values are the
field defaults; the nilable pointer/interface/map fields are `Option`. -/
structure DataplaneMetadata where
  DataplaneToken : String := ""
  Resource : Option CoreResource := none
  AdminPort : Nat := 0
  DNSPort : Nat := 0
  EmptyDNSPort : Nat := 0
  DynamicMetadata : Option (List (String × String)) := none
  ProxyType : String := ""
  Version : Option MeshVersion := none

/-- Modelled from the spec: `mesh_proto.DataplaneProxyType` is not under
`src/`; it is the default proxy type returned by `GetProxyType`. -/
def DataplaneProxyType : String := "dataplane"

/-- Accessor `GetDataplaneToken`; the `Option` argument models the possibly
nil receiver. -/
def GetDataplaneToken : Option DataplaneMetadata → String
  | none => ""
  | some m => m.DataplaneToken

/-- Accessor `GetDataplaneResource`: the resource if it is the dataplane
variant, otherwise none. -/
def GetDataplaneResource : Option DataplaneMetadata → Option CoreResource
  | none => none
  | some m =>
    match m.Resource with
    | some (CoreResource.dataplaneRes r) => some (CoreResource.dataplaneRes r)
    | _ => none

/-- Accessor `GetZoneIngressResource`: the resource if it is the zone-ingress
variant, otherwise none. -/
def GetZoneIngressResource : Option DataplaneMetadata → Option CoreResource
  | none => none
  | some m =>
    match m.Resource with
    | some (CoreResource.zoneIngressRes r) => some (CoreResource.zoneIngressRes r)
    | _ => none

/-- Accessor `GetProxyType`: defaults to the dataplane proxy type on a nil
receiver or an unset field. -/
def GetProxyType : Option DataplaneMetadata → String
  | none => DataplaneProxyType
  | some m => if m.ProxyType = "" then DataplaneProxyType else m.ProxyType

/-- Accessor `GetAdminPort`. -/
def GetAdminPort : Option DataplaneMetadata → Nat
  | none => 0
  | some m => m.AdminPort

/-- Accessor `GetDNSPort`. -/
def GetDNSPort : Option DataplaneMetadata → Nat
  | none => 0
  | some m => m.DNSPort

/-- Accessor `GetEmptyDNSPort`. -/
def GetEmptyDNSPort : Option DataplaneMetadata → Nat
  | none => 0
  | some m => m.EmptyDNSPort

/-- Accessor `GetDynamicMetadata` for one key. -/
def GetDynamicMetadata (m : Option DataplaneMetadata) (key : String) : String :=
  match m with
  | none => ""
  | some m =>
    match m.DynamicMetadata with
    | none => ""
    | some dyn =>
      match dyn.lookup key with
      | none => ""
      | some v => v

/-- Accessor `GetVersion`. -/
def GetVersion : Option DataplaneMetadata → Option MeshVersion
  | none => none
  | some m => m.Version

/-! ## The metadata decoder (source part_000 lines 129-175) -/

/-- The Go runtime message of the nil interface dereference; used to model the
panic that escapes the decoder. -/
def goNilDereferenceMsg : String :=
  "runtime error: invalid memory address or nil pointer dereference"

/-- The `dataplane.resource` field step of the decoder.  On a present field
the payload is unmarshalled; the two accepted variants are stored; any other
successfully decoded resource is only logged (the field stays empty).  When
the unmarshal fails the Go code still enters the type switch with a nil
resource and its default branch evaluates `r.Descriptor().Name` on that nil
interface, which panics; the panic is modelled as the error outcome. -/
def decodeResourceField (fields : List (String × PbValue)) (md : DataplaneMetadata) :
    Except String DataplaneMetadata :=
  match pbLookup fields fieldDataplaneDataplaneResource with
  | none => Except.ok md
  | some value =>
    match UnmarshallToCore value.getStringValue with
    | Except.ok (CoreResource.dataplaneRes r) =>
      Except.ok { md with Resource := some (CoreResource.dataplaneRes r) }
    | Except.ok (CoreResource.zoneIngressRes r) =>
      Except.ok { md with Resource := some (CoreResource.zoneIngressRes r) }
    | Except.ok _ => Except.ok md
    | Except.error _ => Except.error goNilDereferenceMsg

/-- The `dynamicMetadata` field step: a present field always installs a map,
built from the struct payload (empty when the value is not a struct, since
the Go getters are nil-safe). -/
def decodeDynamicMetadataField (fields : List (String × PbValue))
    (md : DataplaneMetadata) : DataplaneMetadata :=
  match pbLookup fields fieldDynamicMetadata with
  | none => md
  | some value =>
    let dyn := (value.getStructValue.getD []).map (fun kv => (kv.1, kv.2.getStringValue))
    { md with DynamicMetadata := some dyn }

/-- The `version` field step: only a struct-valued field is considered; the
version record is installed even when the typed decode fails (the Go code
logs the failure and keeps the zero-valued record). -/
def decodeVersionField (fields : List (String × PbValue))
    (md : DataplaneMetadata) : DataplaneMetadata :=
  match pbLookup fields fieldVersion with
  | none => md
  | some value =>
    match value.getStructValue with
    | none => md
    | some sv =>
      match toTypedVersion sv with
      | some v => { md with Version := some v }
      | none => { md with Version := some {} }

/-- Embedding of `DataplaneMetadataFromXdsMetadata` (source part_000 lines
129-175).  The `Except.error` outcome models a Go panic escaping the
function; every other path returns the populated record. -/
def DataplaneMetadataFromXdsMetadata (xdsMetadata : Option (List (String × PbValue))) :
    Except String DataplaneMetadata :=
  match xdsMetadata with
  | none => Except.ok {}
  | some fields =>
    let md : DataplaneMetadata := {}
    let md := match pbLookup fields fieldDataplaneToken with
      | some field => { md with DataplaneToken := field.getStringValue }
      | none => md
    let md := match pbLookup fields fieldDataplaneProxyType with
      | some field => { md with ProxyType := field.getStringValue }
      | none => md
    let md := { md with AdminPort := uint32Metadata fields fieldDataplaneAdminPort }
    let md := { md with DNSPort := uint32Metadata fields fieldDataplaneDNSPort }
    let md := { md with EmptyDNSPort := uint32Metadata fields fieldDataplaneDNSEmptyPort }
    match decodeResourceField fields md with
    | Except.error e => Except.error e
    | Except.ok md =>
      let md := decodeDynamicMetadataField fields md
      let md := decodeVersionField fields md
      Except.ok md

/-! ## TLS context synthesizer (source part_001) -/

/-- Model of `envoy_type_matcher.StringMatcher` restricted to the two match
patterns the synthesizer builds. -/
inductive StringMatcher where
  | prefixPattern (value : String) : StringMatcher
  | exactPattern (value : String) : StringMatcher
deriving DecidableEq

/-- Model of the ADS config source built by `sdsSecretConfig`. -/
structure ConfigSource where
  resourceApiVersionV3 : Bool
  ads : Bool
deriving DecidableEq

/-- Model of `envoy_tls.SdsSecretConfig`. -/
structure SdsSecretConfig where
  name : String
  sdsConfig : ConfigSource
deriving DecidableEq

/-- Model of `envoy_tls.CommonTlsContext` restricted to the fields the
synthesizer populates. -/
structure CommonTlsContext where
  matchSubjectAltNames : List StringMatcher
  validationContextSdsSecretConfig : SdsSecretConfig
  tlsCertificateSdsSecretConfigs : List SdsSecretConfig
  alpnProtocols : List String := []
deriving DecidableEq

/-- Model of `envoy_tls.DownstreamTlsContext`. -/
structure DownstreamTlsContext where
  commonTlsContext : CommonTlsContext
  requireClientCertificate : Bool
deriving DecidableEq

/-- Model of `envoy_tls.UpstreamTlsContext`. -/
structure UpstreamTlsContext where
  commonTlsContext : CommonTlsContext
  sni : String
deriving DecidableEq

/-- Modelled from the spec: `xds_tls.MeshCaResource` is not under `src/`; it
names the mesh trust-anchor secret handle. -/
def MeshCaResource : String := "mesh_ca"

/-- Modelled from the spec: `xds_tls.IdentityCertResource` is not under
`src/`; it names the identity certificate secret handle (the source doc
comment calls it "identity_cert"). -/
def IdentityCertResource : String := "identity_cert"

/-- Embedding of `sdsSecretConfig`: a named SDS secret fetched over ADS. -/
def sdsSecretConfig (name : String) : SdsSecretConfig :=
  { name := name, sdsConfig := { resourceApiVersionV3 := true, ads := true } }

/-- Embedding of `createCommonTlsContext` (source part_001 lines 60-77); it
never returns an error. -/
def createCommonTlsContext (validationSANMatcher : StringMatcher) :
    Except String CommonTlsContext :=
  Except.ok
    { matchSubjectAltNames := [validationSANMatcher],
      validationContextSdsSecretConfig := sdsSecretConfig MeshCaResource,
      tlsCertificateSdsSecretConfigs := [sdsSecretConfig IdentityCertResource] }

/-- The part of `xds_context.Context` the synthesizer reads: the mesh name and
whether mesh mTLS is enabled. -/
structure XdsContext where
  meshName : String
  mtlsEnabled : Bool

/-- Modelled from the spec: `xds_tls.MeshSpiffeIDPrefix` is not under `src/`;
the source doc comment documents the mesh identity namespace as the URI SAN
form spiffe://(mesh name)/ used for prefix matching. -/
def MeshSpiffeIDPrefixStr (mesh : String) : String := "spiffe://" ++ mesh ++ "/"

/-- Modelled from the spec: `xds_tls.ServiceSpiffeID` is not under `src/`; the
source doc comment documents the service identity as the URI SAN form
spiffe://(mesh name)/(upstream service). -/
def ServiceSpiffeID (mesh service : String) : String :=
  "spiffe://" ++ mesh ++ "/" ++ service

/-- Embedding of `MeshSpiffeIDPrefixMatcher` (source part_001 lines 133-139). -/
def MeshSpiffeIDPrefixMatcher (mesh : String) : StringMatcher :=
  StringMatcher.prefixPattern (MeshSpiffeIDPrefixStr mesh)

/-- Embedding of `ServiceSpiffeIDMatcher` (source part_001 lines 141-147). -/
def ServiceSpiffeIDMatcher (mesh service : String) : StringMatcher :=
  StringMatcher.exactPattern (ServiceSpiffeID mesh service)

/-- Modelled from the spec: `xds_tls.KumaALPNProtocols` is not under `src/`;
the spec describes it as a fixed mesh-wide application-protocol list. -/
def KumaALPNProtocols : List String := ["kuma"]

/-- Embedding of `CreateDownstreamTlsContext` (source part_001 lines 17-30). -/
def CreateDownstreamTlsContext (ctx : XdsContext) :
    Except String (Option DownstreamTlsContext) :=
  if !ctx.mtlsEnabled then Except.ok none
  else
    let validationSANMatcher := MeshSpiffeIDPrefixMatcher ctx.meshName
    match createCommonTlsContext validationSANMatcher with
    | Except.error e => Except.error e
    | Except.ok commonTlsContext =>
      Except.ok (some { commonTlsContext := commonTlsContext,
                        requireClientCertificate := true })

/-- Embedding of `CreateUpstreamTlsContext` (source part_001 lines 39-58). -/
def CreateUpstreamTlsContext (ctx : XdsContext) (upstreamService sni : String) :
    Except String (Option UpstreamTlsContext) :=
  if !ctx.mtlsEnabled then Except.ok none
  else
    let validationSANMatcher :=
      if upstreamService = "*" then MeshSpiffeIDPrefixMatcher ctx.meshName
      else ServiceSpiffeIDMatcher ctx.meshName upstreamService
    match createCommonTlsContext validationSANMatcher with
    | Except.error e => Except.error e
    | Except.ok commonTlsContext =>
      let commonTlsContext := { commonTlsContext with alpnProtocols := KumaALPNProtocols }
      Except.ok (some { commonTlsContext := commonTlsContext, sni := sni })

/-- The SAN matcher list of a downstream synthesis result (empty when the
result is absent or an error). -/
def downstreamSANMatchers : Except String (Option DownstreamTlsContext) → List StringMatcher
  | Except.ok (some c) => c.commonTlsContext.matchSubjectAltNames
  | _ => []

/-- The SAN matcher list of an upstream synthesis result (empty when the
result is absent or an error). -/
def upstreamSANMatchers : Except String (Option UpstreamTlsContext) → List StringMatcher
  | Except.ok (some c) => c.commonTlsContext.matchSubjectAltNames
  | _ => []

/-! ## Gateway route table builder: data model
(source `pkg/plugins/runtime/gateway/gateway_route_generator.go`) -/

/-- Model of `route.Pair` (a name/value pair). -/
structure RoutePair where
  name : String
  value : String
deriving DecidableEq

/-- Model of `route.Match` restricted to the fields `makeRouteMatch`
populates; Go zero values are the defaults. -/
structure RouteMatch where
  exactPath : String := ""
  prefixPath : String := ""
  regexPath : String := ""
  method : String := ""
  exactHeader : List RoutePair := []
  regexHeader : List RoutePair := []
  exactQuery : List RoutePair := []
  regexQuery : List RoutePair := []
deriving DecidableEq

/-- Model of `route.Destination`: a tag map and a weight (the `Policies`
field is always nil in this generator and is omitted). -/
structure RouteDestination where
  Destination : List (String × String) := []
  Weight : Nat := 0
deriving DecidableEq

/-- Model of `route.Redirection`. -/
structure Redirection where
  Status : Nat
  Scheme : String
  Host : String
  Port : Nat
  StripQuery : Bool
deriving DecidableEq

/-- Model of `route.Mirror`; the protobuf double percentage is carried as an
uninterpreted `Float` payload (the generator only copies it). -/
structure RouteMirror where
  Percentage : Float
  Forward : RouteDestination

/-- Model of `route.Headers`. -/
structure RouteHeaders where
  Replace : List RoutePair := []
  Append : List RoutePair := []
  Delete : List String := []
deriving DecidableEq

/-- Model of the `Action` part of `route.Entry`. -/
structure RouteAction where
  Forward : List RouteDestination := []
  Redirect : Option Redirection := none
deriving DecidableEq

/-- Model of `route.Entry`. -/
structure RouteEntry where
  Match : RouteMatch := {}
  Action : RouteAction := {}
  Mirror : Option RouteMirror := none
  RequestHeaders : Option RouteHeaders := none

/-! ### Protobuf input model for `GatewayRoute` rules -/

/-- The three path match kinds of
`GatewayRoute_HttpRoute_Match_Path` (EXACT, PREFIX, REGEX). -/
inductive PathMatchKind where
  | exactKind : PathMatchKind
  | prefixKind : PathMatchKind
  | regexKind : PathMatchKind
deriving DecidableEq

/-- A declared path match: kind plus value. -/
structure PathMatch where
  kind : PathMatchKind
  value : String
deriving DecidableEq

/-- The method enumeration of `GatewayRoute_HttpRoute_Match`: the NONE
sentinel plus the nine HTTP verbs. -/
inductive MethodKind where
  | NONE : MethodKind
  | CONNECT : MethodKind
  | DELETE : MethodKind
  | GET : MethodKind
  | HEAD : MethodKind
  | OPTIONS : MethodKind
  | PATCH : MethodKind
  | POST : MethodKind
  | PUT : MethodKind
  | TRACE : MethodKind
deriving DecidableEq

/-- Header match kinds (EXACT, REGEX). -/
inductive HeaderMatchKind where
  | exactKind : HeaderMatchKind
  | regexKind : HeaderMatchKind
deriving DecidableEq

/-- A declared header match. -/
structure HeaderMatch where
  kind : HeaderMatchKind
  name : String
  value : String
deriving DecidableEq

/-- Query parameter match kinds (EXACT, REGEX). -/
inductive QueryMatchKind where
  | exactKind : QueryMatchKind
  | regexKind : QueryMatchKind
deriving DecidableEq

/-- A declared query parameter match. -/
structure QueryMatch where
  kind : QueryMatchKind
  name : String
  value : String
deriving DecidableEq

/-- One match alternative of a rule (`GatewayRoute_HttpRoute_Match`). -/
structure HttpMatch where
  path : Option PathMatch := none
  method : MethodKind := MethodKind.NONE
  headers : List HeaderMatch := []
  queryParameters : List QueryMatch := []
deriving DecidableEq

/-- One weighted backend of a rule. -/
structure Backend where
  destination : List (String × String) := []
  weight : Nat := 0
deriving DecidableEq

/-- One filter of a rule: exactly one of redirect, mirror or request-header
mutation (the generator tests them in this order). -/
inductive RouteFilter where
  | redirect (scheme hostname : String) (port status : Nat) : RouteFilter
  | mirror (percentage : Float) (backendDestination : List (String × String)) : RouteFilter
  | requestHeader (toSet toAdd : List (String × String)) (toRemove : List String) : RouteFilter

/-- One rule of a `GatewayRoute` (`GatewayRoute_HttpRoute_Rule`). -/
structure HttpRule where
  Matches : List HttpMatch := []
  filters : List RouteFilter := []
  backends : List Backend := []

/-- The HTTP configuration of one `GatewayRoute` resource. -/
structure GatewayRoute where
  hostnames : List String := []
  rules : List HttpRule := []

/-- Model of `model.Resource` as seen by `filterGatewayRoutes`: either a
`GatewayRouteResource` or some other resource kind. -/
inductive MeshResource where
  | gatewayRoute (g : GatewayRoute) : MeshResource
  | otherResource (kind : String) : MeshResource

/-! ### makeRouteEntry and makeRouteMatch (source lines 127-232) -/

/-- One step of the filter loop in `makeRouteEntry`. -/
def applyFilter (entry : RouteEntry) (f : RouteFilter) : RouteEntry :=
  match f with
  | RouteFilter.redirect scheme hostname port status =>
    let r : Redirection :=
      { Status := status, Scheme := scheme, Host := hostname, Port := port,
        StripQuery := true }
    { entry with Action := { entry.Action with Redirect := some r } }
  | RouteFilter.mirror percentage backendDestination =>
    let m : RouteMirror :=
      { Percentage := percentage, Forward := { Destination := backendDestination } }
    { entry with Mirror := some m }
  | RouteFilter.requestHeader toSet toAdd toRemove =>
    let hs := entry.RequestHeaders.getD {}
    let hs := { hs with Replace := hs.Replace ++ toSet.map (fun (p : String × String) => RoutePair.mk p.1 p.2) }
    let hs := { hs with Append := hs.Append ++ toAdd.map (fun (p : String × String) => RoutePair.mk p.1 p.2) }
    let hs := { hs with Delete := hs.Delete ++ toRemove }
    { entry with RequestHeaders := some hs }

/-- Embedding of `makeRouteEntry` (source lines 127-177): the shared
action/redirect/mirror/header payload of one rule. -/
def makeRouteEntry (rule : HttpRule) : RouteEntry :=
  let entry : RouteEntry := {}
  let fwd : List RouteDestination :=
    rule.backends.map (fun b => { Destination := b.destination, Weight := b.weight })
  let entry := { entry with Action := { entry.Action with Forward := fwd } }
  rule.filters.foldl applyFilter entry

/-- The fixed verb-name table of `makeRouteMatch` (source lines 194-204);
NONE is not in the Go map, whose zero value is the empty string. -/
def methodName : MethodKind → String
  | MethodKind.NONE => ""
  | MethodKind.CONNECT => "CONNECT"
  | MethodKind.DELETE => "DELETE"
  | MethodKind.GET => "GET"
  | MethodKind.HEAD => "HEAD"
  | MethodKind.OPTIONS => "OPTIONS"
  | MethodKind.PATCH => "PATCH"
  | MethodKind.POST => "POST"
  | MethodKind.PUT => "PUT"
  | MethodKind.TRACE => "TRACE"

/-- The header loop of `makeRouteMatch`: the exact and regex header pair
lists, in declaration order. -/
def headerPairsAux (hs : List HeaderMatch) : List RoutePair × List RoutePair :=
  hs.foldl (fun acc h =>
    match h.kind with
    | HeaderMatchKind.exactKind => (acc.1 ++ [RoutePair.mk h.name h.value], acc.2)
    | HeaderMatchKind.regexKind => (acc.1, acc.2 ++ [RoutePair.mk h.name h.value])) ([], [])

/-- The query parameter loop of `makeRouteMatch`. -/
def queryPairsAux (qs : List QueryMatch) : List RoutePair × List RoutePair :=
  qs.foldl (fun acc q =>
    match q.kind with
    | QueryMatchKind.exactKind => (acc.1 ++ [RoutePair.mk q.name q.value], acc.2)
    | QueryMatchKind.regexKind => (acc.1, acc.2 ++ [RoutePair.mk q.name q.value])) ([], [])

/-- Embedding of `makeRouteMatch` (source lines 179-232).  Exactly one of the
three path fields is set (by the declared kind); the method string is the
verb name unless the declared method is the NONE sentinel. -/
def makeRouteMatch (ruleMatch : HttpMatch) : RouteMatch :=
  let pathPart : RouteMatch :=
    match ruleMatch.path with
    | none => {}
    | some p =>
      match p.kind with
      | PathMatchKind.exactKind => { exactPath := p.value }
      | PathMatchKind.prefixKind => { prefixPath := p.value }
      | PathMatchKind.regexKind => { regexPath := p.value }
  let methodPart : String :=
    if ruleMatch.method = MethodKind.NONE then "" else methodName ruleMatch.method
  let hp := headerPairsAux ruleMatch.headers
  let qp := queryPairsAux ruleMatch.queryParameters
  { pathPart with
    method := methodPart, exactHeader := hp.1, regexHeader := hp.2,
    exactQuery := qp.1, regexQuery := qp.2 }

/-! ### The path-keyed accumulators

Go `map[string]route.Entry` is realized as an insertion-ordered association
list with overwrite-on-insert; iteration order of the Go map is unspecified,
and the claims proved below are insensitive to it. -/

/-- A path-keyed entry accumulator. -/
abbrev EntryMap := List (String × RouteEntry)

/-- Map insert with overwrite (Go `m[k] = v`). -/
def mapInsert (m : EntryMap) (k : String) (v : RouteEntry) : EntryMap :=
  match m with
  | [] => [(k, v)]
  | (k0, v0) :: rest => if k0 = k then (k0, v) :: rest else (k0, v0) :: mapInsert rest k v

/-- Map key membership (Go `_, ok := m[k]`). -/
def mapMem (m : EntryMap) (k : String) : Bool :=
  match m with
  | [] => false
  | (k0, _) :: rest => if k0 = k then true else mapMem rest k

/-- The keys of an accumulator. -/
def mapKeys (m : EntryMap) : List String := m.map (fun kv => kv.1)

/-- The stored entries of an accumulator. -/
def mapValues (m : EntryMap) : List RouteEntry := m.map (fun kv => kv.2)

/-! ### GenerateHost (source lines 37-125) -/

/-- The mutable state of the classification loop: the two path-keyed
accumulators plus the route table entries appended so far (the Other-kind
entries). -/
structure GenState where
  exactEntries : EntryMap := []
  prefixEntries : EntryMap := []
  entries : List RouteEntry := []

/-- One match alternative of the classification loop (source lines 74-86). -/
def classifyOne (entry : RouteEntry) (st : GenState) (m : HttpMatch) : GenState :=
  let routeEntry := { entry with Match := makeRouteMatch m }
  if routeEntry.Match.exactPath ≠ "" then
    { st with exactEntries := mapInsert st.exactEntries routeEntry.Match.exactPath routeEntry }
  else if routeEntry.Match.prefixPath ≠ "" then
    { st with prefixEntries := mapInsert st.prefixEntries routeEntry.Match.prefixPath routeEntry }
  else
    { st with entries := st.entries ++ [routeEntry] }

/-- One rule of the classification loop: the shared payload is built once and
duplicated per match alternative (OR semantics). -/
def classifyRule (st : GenState) (rule : HttpRule) : GenState :=
  rule.Matches.foldl (classifyOne (makeRouteEntry rule)) st

/-- One accepted route of the classification loop. -/
def classifyRoute (st : GenState) (g : GatewayRoute) : GenState :=
  g.rules.foldl classifyRule st

/-- The whole classification loop (source lines 63-88). -/
def classifyAll (grs : List GatewayRoute) : GenState :=
  grs.foldl classifyRoute {}

/-- Go `strings.TrimRight(s, "/")`: remove every trailing slash. -/
def trimRightSlash (s : String) : String :=
  String.mk ((s.data.reverse.dropWhile (fun c => c == '/')).reverse)

/-- One step of the prefix expansion pass (source lines 96-118): rewrite the
prefix to stripped form plus one trailing slash, append it to the output,
and, unless the rewritten prefix is the bare root or the exact accumulator
already holds the stripped path, synthesize an exact duplicate there. -/
def expandOne (st : EntryMap × List RouteEntry) (kv : String × RouteEntry) :
    EntryMap × List RouteEntry :=
  let prefixEntry := kv.2
  let exact := trimRightSlash prefixEntry.Match.prefixPath
  let prefixEntry :=
    { prefixEntry with Match := { prefixEntry.Match with prefixPath := exact ++ "/" } }
  let out := st.2 ++ [prefixEntry]
  if prefixEntry.Match.prefixPath = "/" then (st.1, out)
  else if mapMem st.1 exact then (st.1, out)
  else
    let exactMatchEntry :=
      { prefixEntry with Match :=
          { prefixEntry.Match with prefixPath := "", exactPath := exact } }
    (mapInsert st.1 exact exactMatchEntry, out)

/-- The prefix expansion pass: fold over the prefix accumulator, threading
the exact accumulator and collecting the rewritten prefix entries. -/
def expandAll (exactEntries prefixEntries : EntryMap) : EntryMap × List RouteEntry :=
  prefixEntries.foldl expandOne (exactEntries, [])

/-- The entries `GenerateHost` appends for a nonempty accepted route list:
the Other-kind entries in classification order, then the rewritten prefix
entries, then the entries of the final exact accumulator (source lines
63-122). -/
def buildEntries (grs : List GatewayRoute) : List RouteEntry :=
  let st := classifyAll grs
  let ex := expandAll st.exactEntries st.prefixEntries
  st.entries ++ ex.2 ++ mapValues ex.1

/-- Modelled from the spec: the wildcard virtual host sentinel. -/
def WildcardHostname : String := "*"

/-- Modelled from the spec: `match.Hostnames` is not under `src/`; the spec
describes hostname matching as exact string match or a left-wildcard form
such as *.example.com. -/
def matchHostname (hostname name : String) : Bool :=
  if List.isPrefixOf "*.".data name.data then
    List.isSuffixOf (name.data.drop 1) hostname.data
  else hostname == name

/-- Modelled from the spec: a route hostname set matches when any declared
name matches. -/
def matchHostnames (hostname : String) (names : List String) : Bool :=
  names.any (matchHostname hostname)

/-- The host acceptance predicate `GenerateHost` passes to
`filterGatewayRoutes` (source lines 38-52). -/
def acceptGatewayRoute (hostname : String) (g : GatewayRoute) : Bool :=
  if hostname == WildcardHostname then true
  else if g.hostnames.isEmpty then true
  else matchHostnames hostname g.hostnames

/-- Embedding of `filterGatewayRoutes` (source lines 15-27). -/
def filterGatewayRoutes (resources : List MeshResource)
    (accept : GatewayRoute → Bool) : List GatewayRoute :=
  resources.foldl (fun acc r =>
    match r with
    | MeshResource.gatewayRoute g => if accept g then acc ++ [g] else acc
    | MeshResource.otherResource _ => acc) []

/-- Model of `core_xds.ResourceSet`; `GenerateHost` never returns one. -/
structure ResourceSet where
  resources : List String := []
deriving DecidableEq

/-- Embedding of `GenerateHost` (source lines 37-125): the updated route
table accumulator plus the returned pair, which is `(nil, nil)` on every
path - after the early return for an empty accepted route list and after a
table-extending run alike. -/
def GenerateHost (hostname : String) (routes : List MeshResource)
    (table : List RouteEntry) :
    List RouteEntry × Option ResourceSet × Option String :=
  let gatewayRoutes := filterGatewayRoutes routes (acceptGatewayRoute hostname)
  if gatewayRoutes.length = 0 then (table, none, none)
  else (table ++ buildEntries gatewayRoutes, none, none)

/-! ## Derived predicates and sample inputs used by the claims -/

/-- Modelled from the spec: the method predicate of an emitted route entry.
The spec describes method matching against the fixed verb enumeration, with
an unconstrained sentinel (carried by the entry as the empty method string,
the Go zero value left by `makeRouteMatch`) matching all verbs; the actual
request matching happens in the proxy, outside `src/`. -/
def methodMatches (entryMethod : String) (verb : MethodKind) : Bool :=
  entryMethod == "" || entryMethod == methodName verb

/-- Whether a character list does not start with a slash. -/
def noLeadSlash : List Char → Bool
  | [] => true
  | c :: _ => !(c == '/')

/-- Whether a path string ends in exactly one trailing slash: its last
character is a slash and the character before it (when present) is not. -/
def endsInExactlyOneSlash (s : String) : Bool :=
  match s.data.reverse with
  | [] => false
  | c :: rest => c == '/' && noLeadSlash rest

/-- Well-formedness of the exact-path accumulator: keys are distinct and
nonempty, and every stored entry is exact-classified at its key. -/
def ExactWF (m : EntryMap) : Prop :=
  (mapKeys m).Nodup ∧
  ∀ kv ∈ m, kv.2.Match.exactPath = kv.1 ∧ kv.2.Match.prefixPath = "" ∧ kv.1 ≠ ""

/-- Well-formedness of the prefix-path accumulator: keys are distinct and
nonempty, and every stored entry is prefix-classified at its key. -/
def PrefixWF (m : EntryMap) : Prop :=
  (mapKeys m).Nodup ∧
  ∀ kv ∈ m, kv.2.Match.prefixPath = kv.1 ∧ kv.2.Match.exactPath = "" ∧ kv.1 ≠ ""

/-- Well-formedness of the classification state: both accumulators are
well-formed and the directly appended entries are Other-classified. -/
def StateWF (st : GenState) : Prop :=
  ExactWF st.exactEntries ∧ PrefixWF st.prefixEntries ∧
  ∀ e ∈ st.entries, e.Match.exactPath = "" ∧ e.Match.prefixPath = ""

/-- Sample match declaring the path as PREFIX /foo. -/
def samplePrefixFooMatch : HttpMatch :=
  { path := some { kind := PathMatchKind.prefixKind, value := "/foo" } }

/-- Sample match declaring the path as EXACT /foo. -/
def sampleExactFooMatch : HttpMatch :=
  { path := some { kind := PathMatchKind.exactKind, value := "/foo" } }

/-- Sample rule one of Scenario A: a prefix rule at /foo. -/
def sampleRuleOne : HttpRule :=
  { Matches := [samplePrefixFooMatch],
    backends := [{ destination := [("kuma.io/service", "one")], weight := 1 }] }

/-- Sample policy object one of Scenario A. -/
def sampleRouteOne : GatewayRoute := { rules := [sampleRuleOne] }

/-- Sample rule two of Scenario A: an exact rule at /foo. -/
def sampleRuleTwo : HttpRule :=
  { Matches := [sampleExactFooMatch],
    backends := [{ destination := [("kuma.io/service", "two")], weight := 1 }] }

/-- Sample policy object two of Scenario A. -/
def sampleRouteTwo : GatewayRoute := { rules := [sampleRuleTwo] }

/-- The resource list of Scenario A. -/
def scenarioAResources : List MeshResource :=
  [MeshResource.gatewayRoute sampleRouteOne, MeshResource.gatewayRoute sampleRouteTwo]

/-- The entries the builder produces for Scenario A on the wildcard host. -/
def scenarioAOut : List RouteEntry :=
  buildEntries (filterGatewayRoutes scenarioAResources (acceptGatewayRoute WildcardHostname))

/-- Sample header-only match alternative of Scenario B (header X=1). -/
def sampleHeaderMatch : HttpMatch :=
  { headers := [{ kind := HeaderMatchKind.exactKind, name := "X", value := "1" }] }

/-- Sample method-only match alternative of Scenario B (method GET). -/
def sampleGetMatch : HttpMatch := { method := MethodKind.GET }

/-- Sample rule of Scenario B: two Other-kind match alternatives sharing one
forward action. -/
def sampleOtherRule : HttpRule :=
  { Matches := [sampleHeaderMatch, sampleGetMatch],
    backends := [{ destination := [("kuma.io/service", "b")], weight := 2 }] }

/-- The entries the builder produces for Scenario B. -/
def scenarioBOut : List RouteEntry := buildEntries [{ rules := [sampleOtherRule] }]

/-- Sample match with a root prefix path (two slashes, stripping to empty). -/
def sampleRootMatch : HttpMatch :=
  { path := some { kind := PathMatchKind.prefixKind, value := "//" } }

/-- Sample rule with only the root prefix match. -/
def sampleRootRule : HttpRule := { Matches := [sampleRootMatch] }

/-- Sample accepted route whose only rule has a root prefix path. -/
def sampleRootRoute : GatewayRoute := { rules := [sampleRootRule] }

/-- Sample route with one bare prefix rule at /x and no action payload. -/
def sampleSlashRoute : GatewayRoute :=
  { rules := [{ Matches := [{ path := some { kind := PathMatchKind.prefixKind, value := "/x" } }] }] }

/-! ## General helper lemmas -/

/-- A fold preserves any invariant its steps preserve. -/
theorem foldl_inv {α σ : Type _} {P : σ → Prop} {f : σ → α → σ} :
    ∀ (l : List α) (s : σ), (∀ s a, a ∈ l → P s → P (f s a)) → P s → P (l.foldl f s) := by
  intro l
  induction l with
  | nil => intro s _ hs; exact hs
  | cons a t ih =>
    intro s hstep hs
    exact ih (f s a) (fun s b hb h => hstep s b (List.mem_cons_of_mem a hb) h)
      (hstep s a (List.mem_cons_self a t) hs)

/-- A fold satisfies any property established by one of its elements and
preserved by every step. -/
theorem foldl_est {α σ : Type _} {P : σ → Prop} {f : σ → α → σ} {x : α} :
    ∀ (l : List α) (s : σ), x ∈ l → (∀ s, P (f s x)) →
      (∀ s a, a ∈ l → P s → P (f s a)) → P (l.foldl f s) := by
  intro l
  induction l with
  | nil => intro s hx; cases hx
  | cons a t ih =>
    intro s hx hest hstep
    rcases List.mem_cons.mp hx with h | h
    · subst h
      exact foldl_inv t (f s x)
        (fun s b hb hp => hstep s b (List.mem_cons_of_mem x hb) hp) (hest s)
    · exact ih (f s a) h hest (fun s b hb hp => hstep s b (List.mem_cons_of_mem a hb) hp)

/-- The key list of the empty accumulator. -/
@[simp] theorem mapKeys_nil : mapKeys [] = [] := rfl

/-- The key list of a nonempty accumulator. -/
@[simp] theorem mapKeys_cons (k0 : String) (v0 : RouteEntry) (t : EntryMap) :
    mapKeys ((k0, v0) :: t) = k0 :: mapKeys t := rfl

/-- The value list of the empty accumulator. -/
@[simp] theorem mapValues_nil : mapValues [] = [] := rfl

/-- The value list of a nonempty accumulator. -/
@[simp] theorem mapValues_cons (k0 : String) (v0 : RouteEntry) (t : EntryMap) :
    mapValues ((k0, v0) :: t) = v0 :: mapValues t := rfl

/-- Members of an accumulator after an insert: an old pair or the new one. -/
theorem mem_mapInsert {k : String} {v : RouteEntry} :
    ∀ {m : EntryMap} {kv : String × RouteEntry},
      kv ∈ mapInsert m k v → kv ∈ m ∨ kv = (k, v) := by
  intro m
  induction m with
  | nil =>
    intro kv h
    simp [mapInsert] at h
    right
    exact h
  | cons hd t ih =>
    obtain ⟨k0, v0⟩ := hd
    intro kv h
    by_cases hk : k0 = k
    · subst hk
      simp [mapInsert] at h
      rcases h with h | h
      · right; simp [h]
      · left; exact List.mem_cons_of_mem _ h
    · simp [mapInsert, hk] at h
      rcases h with h | h
      · left; simp [h]
      · rcases ih h with h2 | h2
        · left; exact List.mem_cons_of_mem _ h2
        · right; exact h2

/-- Inserting a key makes it a member. -/
theorem mapMem_mapInsert_self (m : EntryMap) (k : String) (v : RouteEntry) :
    mapMem (mapInsert m k v) k = true := by
  induction m with
  | nil => simp [mapInsert, mapMem]
  | cons hd t ih =>
    obtain ⟨k0, v0⟩ := hd
    by_cases hk : k0 = k
    · subst hk; simp [mapInsert, mapMem]
    · simp [mapInsert, mapMem, hk, ih]

/-- Insert never removes a member key. -/
theorem mapMem_mapInsert_mono {m : EntryMap} {k2 : String} (k : String) (v : RouteEntry)
    (h : mapMem m k2 = true) : mapMem (mapInsert m k v) k2 = true := by
  induction m with
  | nil => simp [mapMem] at h
  | cons hd t ih =>
    obtain ⟨k0, v0⟩ := hd
    by_cases hk : k0 = k
    · subst hk
      by_cases h2 : k0 = k2
      · simp [mapInsert, mapMem, h2]
      · simp [mapMem, h2] at h
        simp [mapInsert, mapMem, h2, h]
    · by_cases h2 : k0 = k2
      · subst h2
        simp [mapInsert, mapMem, hk]
      · simp [mapMem, h2] at h
        simp [mapInsert, mapMem, hk, h2, ih h]

/-- Key membership agrees with membership in the key list. -/
theorem mapMem_iff_keys {m : EntryMap} {k : String} :
    mapMem m k = true ↔ k ∈ mapKeys m := by
  induction m with
  | nil => simp [mapMem]
  | cons hd t ih =>
    obtain ⟨k0, v0⟩ := hd
    by_cases hk : k0 = k
    · subst hk; simp [mapMem]
    · have hk2 : ¬k = k0 := fun h => hk h.symm
      simp [mapMem, hk, hk2, ih]

/-- A member key is carried by some stored pair. -/
theorem exists_of_mapMem {m : EntryMap} {k : String} (h : mapMem m k = true) :
    ∃ v, (k, v) ∈ m := by
  induction m with
  | nil => simp [mapMem] at h
  | cons hd t ih =>
    obtain ⟨k0, v0⟩ := hd
    by_cases hk : k0 = k
    · subst hk
      exact ⟨v0, List.mem_cons_self _ _⟩
    · simp [mapMem, hk] at h
      obtain ⟨v, hv⟩ := ih h
      exact ⟨v, List.mem_cons_of_mem _ hv⟩

/-- The key list after an insert: unchanged when present, appended when
fresh. -/
theorem mapKeys_mapInsert (m : EntryMap) (k : String) (v : RouteEntry) :
    mapKeys (mapInsert m k v) =
      if k ∈ mapKeys m then mapKeys m else mapKeys m ++ [k] := by
  induction m with
  | nil => simp [mapInsert]
  | cons hd t ih =>
    obtain ⟨k0, v0⟩ := hd
    by_cases hk : k0 = k
    · subst hk; simp [mapInsert]
    · have hne : ¬k = k0 := fun h => hk h.symm
      simp only [mapInsert, if_neg hk, mapKeys_cons, ih, List.mem_cons]
      by_cases hmem : k ∈ mapKeys t
      · simp [hmem, hne]
      · simp [hmem, hne]

/-- Insert preserves distinctness of the keys. -/
theorem nodup_mapInsert {m : EntryMap} (k : String) (v : RouteEntry)
    (h : (mapKeys m).Nodup) : (mapKeys (mapInsert m k v)).Nodup := by
  rw [mapKeys_mapInsert]
  by_cases hmem : k ∈ mapKeys m
  · simpa [hmem] using h
  · simp only [if_neg hmem]
    exact List.Nodup.append h (List.nodup_singleton k)
      (by simpa [List.disjoint_singleton] using hmem)

/-- Count of exact entries at a path among the stored entries of a
well-formed exact accumulator: one when the key is present, zero otherwise. -/
theorem countP_mapValues_exact {x : String} :
    ∀ {m : EntryMap}, ExactWF m →
      (mapValues m).countP (fun e => e.Match.exactPath == x) =
        if x ∈ mapKeys m then 1 else 0 := by
  intro m
  induction m with
  | nil => intro _; simp
  | cons hd t ih =>
    intro hwf
    obtain ⟨k0, v0⟩ := hd
    obtain ⟨hnd, hval⟩ := hwf
    have hv0 := hval (k0, v0) (List.mem_cons_self _ _)
    have hnd2 := List.nodup_cons.mp (by simpa using hnd)
    have hwt : ExactWF t := ⟨hnd2.2, fun kv hkv => hval kv (List.mem_cons_of_mem _ hkv)⟩
    have hr := ih hwt
    by_cases hx : k0 = x
    · subst hx
      have hcnt0 : (mapValues t).countP (fun e => e.Match.exactPath == k0) = 0 := by
        rw [hr, if_neg hnd2.1]
      have hv01 : v0.Match.exactPath = k0 := hv0.1
      simp only [mapValues_cons, List.countP_cons, hcnt0, mapKeys_cons, List.mem_cons]
      have hbeq : (v0.Match.exactPath == k0) = true := by
        rw [hv01]
        exact beq_self_eq_true k0
      simp [hbeq]
    · have hv01 : v0.Match.exactPath = k0 := hv0.1
      have hne : (v0.Match.exactPath == x) = false := by
        rw [hv01]
        exact beq_eq_false_iff_ne.mpr hx
      have hxne : ¬x = k0 := fun h => hx h.symm
      simp only [mapValues_cons, List.countP_cons, hne, mapKeys_cons, List.mem_cons, hr]
      by_cases hmem : x ∈ mapKeys t
      · simp [hmem]
      · simp [hmem, hxne]

/-- A well-formed exact accumulator never stores the empty key. -/
theorem exactWF_no_empty_key {m : EntryMap} (h : ExactWF m) : mapMem m "" = false := by
  cases hb : mapMem m "" with
  | false => rfl
  | true =>
    obtain ⟨v, hv⟩ := exists_of_mapMem hb
    exact absurd rfl (h.2 ("", v) hv).2.2

/-- The character data of a string built from a character list. -/
theorem data_mk (l : List Char) : (String.mk l).data = l := rfl

/-- The character data of the slash string. -/
theorem slash_data : ("/" : String).data = ['/'] := rfl

/-- Dropping leading slashes leaves a list that does not start with one. -/
theorem noLeadSlash_dropWhile (l : List Char) :
    noLeadSlash (l.dropWhile (fun c => c == '/')) = true := by
  induction l with
  | nil => rfl
  | cons c t ih =>
    by_cases h : c = '/'
    · subst h; simpa [List.dropWhile] using ih
    · have hb : (c == '/') = false := by simp [h]
      simp [List.dropWhile, hb, noLeadSlash]

/-- The rewritten prefix path (stripped form plus one slash) ends in exactly
one trailing slash. -/
theorem endsInExactlyOneSlash_trim_append (s : String) :
    endsInExactlyOneSlash (trimRightSlash s ++ "/") = true := by
  have hdata : (trimRightSlash s ++ "/").data
      = (s.data.reverse.dropWhile (fun c => c == '/')).reverse ++ ['/'] := by
    simp [trimRightSlash, String.data_append, data_mk, slash_data]
  unfold endsInExactlyOneSlash
  rw [hdata, List.reverse_append]
  simp [List.reverse_reverse, noLeadSlash_dropWhile]

/-- A string followed by a slash is the bare root exactly when the string is
empty. -/
theorem append_slash_eq_root {s : String} : s ++ "/" = "/" ↔ s = "" := by
  constructor
  · intro h
    have hd := congrArg String.data h
    rw [String.data_append, slash_data] at hd
    have hnil : s.data = [] := by
      cases hs : s.data with
      | nil => rfl
      | cons c t =>
        rw [hs] at hd
        have := congrArg List.length hd
        simp at this
    cases s
    rw [show ("" : String) = String.mk [] from rfl]
    exact congrArg String.mk (by simpa [data_mk] using hnil)
  · intro h
    subst h
    rfl

/-! ## Lemmas about makeRouteMatch and the classification pass -/

/-- At most one of the exact and prefix path fields of a built match is set. -/
theorem makeRouteMatch_exact_or_prefixPath (rm : HttpMatch) :
    (makeRouteMatch rm).exactPath = "" ∨ (makeRouteMatch rm).prefixPath = "" := by
  rcases hp : rm.path with _ | p
  · left; simp [makeRouteMatch, hp]
  · cases hk : p.kind
    · right; simp [makeRouteMatch, hp, hk]
    · left; simp [makeRouteMatch, hp, hk]
    · left; simp [makeRouteMatch, hp, hk]

/-- The path fields of a match built from a declared PREFIX path. -/
theorem makeRouteMatch_of_prefixPath {rm : HttpMatch} {pv : String}
    (h : rm.path = some { kind := PathMatchKind.prefixKind, value := pv }) :
    (makeRouteMatch rm).prefixPath = pv ∧ (makeRouteMatch rm).exactPath = "" := by
  constructor <;> simp [makeRouteMatch, h]

/-- The method field of a built match. -/
theorem makeRouteMatch_method (rm : HttpMatch) :
    (makeRouteMatch rm).method =
      if rm.method = MethodKind.NONE then "" else methodName rm.method := by
  rcases hp : rm.path with _ | p
  · simp [makeRouteMatch, hp]
  · cases hk : p.kind <;> simp [makeRouteMatch, hp, hk]

/-- Unfolding equation of one classification step. -/
theorem classifyOne_eq (entry : RouteEntry) (st : GenState) (m : HttpMatch) :
    classifyOne entry st m =
      (if (makeRouteMatch m).exactPath ≠ "" then
        { st with exactEntries := mapInsert st.exactEntries (makeRouteMatch m).exactPath ({ entry with Match := makeRouteMatch m }) }
      else if (makeRouteMatch m).prefixPath ≠ "" then
        { st with prefixEntries := mapInsert st.prefixEntries (makeRouteMatch m).prefixPath ({ entry with Match := makeRouteMatch m }) }
      else
        { st with entries := st.entries ++ [{ entry with Match := makeRouteMatch m }] }) := rfl

/-- One classification step preserves state well-formedness. -/
theorem classifyOne_wf {entry : RouteEntry} {st : GenState} {m : HttpMatch}
    (h : StateWF st) : StateWF (classifyOne entry st m) := by
  obtain ⟨hex, hpre, hoth⟩ := h
  rw [classifyOne_eq]
  by_cases h1 : (makeRouteMatch m).exactPath ≠ ""
  · rw [if_pos h1]
    have hpp : (makeRouteMatch m).prefixPath = "" :=
      (makeRouteMatch_exact_or_prefixPath m).resolve_left h1
    refine ⟨⟨nodup_mapInsert _ _ hex.1, ?_⟩, hpre, hoth⟩
    intro kv hkv
    rcases mem_mapInsert hkv with hold | hnew
    · exact hex.2 kv hold
    · subst hnew
      exact ⟨rfl, hpp, h1⟩
  · rw [if_neg h1]
    push_neg at h1
    by_cases h2 : (makeRouteMatch m).prefixPath ≠ ""
    · rw [if_pos h2]
      refine ⟨hex, ⟨nodup_mapInsert _ _ hpre.1, ?_⟩, hoth⟩
      intro kv hkv
      rcases mem_mapInsert hkv with hold | hnew
      · exact hpre.2 kv hold
      · subst hnew
        exact ⟨rfl, h1, h2⟩
    · rw [if_neg h2]
      push_neg at h2
      refine ⟨hex, hpre, ?_⟩
      intro e he
      rcases List.mem_append.mp he with he | he
      · exact hoth e he
      · simp at he
        subst he
        exact ⟨h1, h2⟩

/-- One classification step never removes a prefix accumulator key. -/
theorem classifyOne_prefixMem {entry : RouteEntry} {st : GenState} {m : HttpMatch}
    {k : String} (h : mapMem st.prefixEntries k = true) :
    mapMem (classifyOne entry st m).prefixEntries k = true := by
  rw [classifyOne_eq]
  by_cases h1 : (makeRouteMatch m).exactPath ≠ ""
  · rw [if_pos h1]; exact h
  · rw [if_neg h1]
    by_cases h2 : (makeRouteMatch m).prefixPath ≠ ""
    · rw [if_pos h2]; exact mapMem_mapInsert_mono _ _ h
    · rw [if_neg h2]; exact h

/-- A prefix-classified match installs its path in the prefix accumulator. -/
theorem classifyOne_prefixEst {entry : RouteEntry} {st : GenState} {m : HttpMatch}
    {pv : String} (hpv : (makeRouteMatch m).prefixPath = pv) (hne : pv ≠ "")
    (hexe : (makeRouteMatch m).exactPath = "") :
    mapMem (classifyOne entry st m).prefixEntries pv = true := by
  rw [classifyOne_eq]
  rw [if_neg (fun hc => hc hexe)]
  rw [if_pos (hpv ▸ hne)]
  rw [hpv]
  exact mapMem_mapInsert_self _ _ _

/-- The classification pass over one rule preserves well-formedness. -/
theorem classifyRule_wf {st : GenState} {rule : HttpRule} (h : StateWF st) :
    StateWF (classifyRule st rule) := by
  unfold classifyRule
  exact foldl_inv _ _ (fun _ _ _ hp => classifyOne_wf hp) h

/-- The classification pass over one route preserves well-formedness. -/
theorem classifyRoute_wf {st : GenState} {g : GatewayRoute} (h : StateWF st) :
    StateWF (classifyRoute st g) := by
  unfold classifyRoute
  exact foldl_inv _ _ (fun _ _ _ hp => classifyRule_wf hp) h

/-- The empty classification state is well-formed. -/
theorem stateWF_init : StateWF {} := by
  refine ⟨⟨?_, ?_⟩, ⟨?_, ?_⟩, ?_⟩ <;> simp [mapKeys]

/-- The full classification pass produces a well-formed state. -/
theorem classifyAll_wf (grs : List GatewayRoute) : StateWF (classifyAll grs) := by
  unfold classifyAll
  exact foldl_inv _ _ (fun _ _ _ hp => classifyRoute_wf hp) stateWF_init

/-- The rule-level pass never removes a prefix accumulator key. -/
theorem classifyRule_prefixMem {st : GenState} {rule : HttpRule} {k : String}
    (h : mapMem st.prefixEntries k = true) :
    mapMem (classifyRule st rule).prefixEntries k = true := by
  unfold classifyRule
  exact @foldl_inv HttpMatch GenState (fun x => mapMem x.prefixEntries k = true)
    (classifyOne (makeRouteEntry rule)) rule.Matches st
    (fun _ _ _ hp => classifyOne_prefixMem hp) h

/-- The route-level pass never removes a prefix accumulator key. -/
theorem classifyRoute_prefixMem {st : GenState} {g : GatewayRoute} {k : String}
    (h : mapMem st.prefixEntries k = true) :
    mapMem (classifyRoute st g).prefixEntries k = true := by
  unfold classifyRoute
  exact @foldl_inv HttpRule GenState (fun x => mapMem x.prefixEntries k = true)
    classifyRule g.rules st (fun _ _ _ hp => classifyRule_prefixMem hp) h

/-- A rule containing a prefix-path match installs that path in the prefix
accumulator, whatever the starting state. -/
theorem classifyRule_prefixEst {rule : HttpRule} {m : HttpMatch} {pv : String}
    (hm : m ∈ rule.Matches)
    (hpath : m.path = some { kind := PathMatchKind.prefixKind, value := pv })
    (hne : pv ≠ "") :
    ∀ st : GenState, mapMem (classifyRule st rule).prefixEntries pv = true := by
  intro st
  obtain ⟨hp, he⟩ := makeRouteMatch_of_prefixPath hpath
  unfold classifyRule
  exact @foldl_est HttpMatch GenState (fun x => mapMem x.prefixEntries pv = true)
    (classifyOne (makeRouteEntry rule)) m rule.Matches st hm
    (fun s => classifyOne_prefixEst hp hne he)
    (fun _ _ _ hp2 => classifyOne_prefixMem hp2)

/-- A route containing such a rule installs the path, whatever the starting
state. -/
theorem classifyRoute_prefixEst {g : GatewayRoute} {rule : HttpRule} {m : HttpMatch}
    {pv : String} (hr : rule ∈ g.rules) (hm : m ∈ rule.Matches)
    (hpath : m.path = some { kind := PathMatchKind.prefixKind, value := pv })
    (hne : pv ≠ "") :
    ∀ st : GenState, mapMem (classifyRoute st g).prefixEntries pv = true := by
  intro st
  unfold classifyRoute
  exact @foldl_est HttpRule GenState (fun x => mapMem x.prefixEntries pv = true)
    classifyRule rule g.rules st hr
    (fun s => classifyRule_prefixEst hm hpath hne s)
    (fun _ _ _ hp2 => classifyRule_prefixMem hp2)

/-- An accepted route with a prefix-path rule leaves that path in the prefix
accumulator of the full classification pass. -/
theorem classifyAll_prefixEst {grs : List GatewayRoute} {g : GatewayRoute}
    {rule : HttpRule} {m : HttpMatch} {pv : String} (hg : g ∈ grs)
    (hr : rule ∈ g.rules) (hm : m ∈ rule.Matches)
    (hpath : m.path = some { kind := PathMatchKind.prefixKind, value := pv })
    (hne : pv ≠ "") :
    mapMem (classifyAll grs).prefixEntries pv = true := by
  unfold classifyAll
  exact @foldl_est GatewayRoute GenState (fun x => mapMem x.prefixEntries pv = true)
    classifyRoute g grs {} hg
    (fun s => classifyRoute_prefixEst hr hm hpath hne s)
    (fun _ _ _ hp2 => classifyRoute_prefixMem hp2)

/-! ## Lemmas about the prefix expansion pass -/

/-- Unfolding equation of one expansion step. -/
theorem expandOne_eq (st : EntryMap × List RouteEntry) (kv : String × RouteEntry) :
    expandOne st kv =
      (if trimRightSlash kv.2.Match.prefixPath ++ "/" = "/" then
        (st.1, st.2 ++ [{ kv.2 with Match := { kv.2.Match with prefixPath := trimRightSlash kv.2.Match.prefixPath ++ "/" } }])
      else if mapMem st.1 (trimRightSlash kv.2.Match.prefixPath) then
        (st.1, st.2 ++ [{ kv.2 with Match := { kv.2.Match with prefixPath := trimRightSlash kv.2.Match.prefixPath ++ "/" } }])
      else
        (mapInsert st.1 (trimRightSlash kv.2.Match.prefixPath) ({ kv.2 with Match := { kv.2.Match with prefixPath := "", exactPath := trimRightSlash kv.2.Match.prefixPath } }),
         st.2 ++ [{ kv.2 with Match := { kv.2.Match with prefixPath := trimRightSlash kv.2.Match.prefixPath ++ "/" } }])) := rfl

/-- One expansion step preserves well-formedness of the exact accumulator. -/
theorem expandOne_exactWF {st : EntryMap × List RouteEntry} {kv : String × RouteEntry}
    (h : ExactWF st.1) : ExactWF (expandOne st kv).1 := by
  rw [expandOne_eq]
  by_cases h1 : trimRightSlash kv.2.Match.prefixPath ++ "/" = "/"
  · rw [if_pos h1]; exact h
  · rw [if_neg h1]
    by_cases h2 : mapMem st.1 (trimRightSlash kv.2.Match.prefixPath) = true
    · rw [if_pos h2]; exact h
    · rw [if_neg h2]
      refine ⟨nodup_mapInsert _ _ h.1, ?_⟩
      intro kv2 hkv2
      rcases mem_mapInsert hkv2 with hold | hnew
      · exact h.2 kv2 hold
      · subst hnew
        refine ⟨rfl, rfl, fun hx => h1 ?_⟩
        have hx2 : trimRightSlash kv.2.Match.prefixPath = "" := hx
        rw [hx2]
        rfl

/-- One expansion step never removes an exact accumulator key. -/
theorem expandOne_exactMem {st : EntryMap × List RouteEntry} {kv : String × RouteEntry}
    {k : String} (h : mapMem st.1 k = true) : mapMem (expandOne st kv).1 k = true := by
  rw [expandOne_eq]
  by_cases h1 : trimRightSlash kv.2.Match.prefixPath ++ "/" = "/"
  · rw [if_pos h1]; exact h
  · rw [if_neg h1]
    by_cases h2 : mapMem st.1 (trimRightSlash kv.2.Match.prefixPath) = true
    · rw [if_pos h2]; exact h
    · rw [if_neg h2]; exact mapMem_mapInsert_mono _ _ h

/-- After processing a non-root prefix entry, its stripped path is an exact
accumulator key. -/
theorem expandOne_est {st : EntryMap × List RouteEntry} {kv : String × RouteEntry}
    (hne : trimRightSlash kv.2.Match.prefixPath ≠ "") :
    mapMem (expandOne st kv).1 (trimRightSlash kv.2.Match.prefixPath) = true := by
  rw [expandOne_eq]
  have h1 : ¬(trimRightSlash kv.2.Match.prefixPath ++ "/" = "/") :=
    fun hc => hne (append_slash_eq_root.mp hc)
  rw [if_neg h1]
  by_cases h2 : mapMem st.1 (trimRightSlash kv.2.Match.prefixPath) = true
  · rw [if_pos h2]; exact h2
  · rw [if_neg h2]; exact mapMem_mapInsert_self _ _ _

/-- Every expansion step appends exactly the rewritten prefix entry to the
output. -/
theorem expandOne_out (st : EntryMap × List RouteEntry) (kv : String × RouteEntry) :
    (expandOne st kv).2 =
      st.2 ++ [{ kv.2 with Match := { kv.2.Match with prefixPath := trimRightSlash kv.2.Match.prefixPath ++ "/" } }] := by
  rw [expandOne_eq]
  split_ifs <;> rfl

/-- The expansion pass preserves well-formedness of the exact accumulator. -/
theorem expandAll_exactWF {em pm : EntryMap} (h : ExactWF em) :
    ExactWF (expandAll em pm).1 := by
  unfold expandAll
  exact @foldl_inv (String × RouteEntry) (EntryMap × List RouteEntry)
    (fun x => ExactWF x.1) expandOne pm (em, [])
    (fun _ _ _ hp => expandOne_exactWF hp) h

/-- The expansion pass never removes an exact accumulator key. -/
theorem expandAll_exactMem {em pm : EntryMap} {k : String} (h : mapMem em k = true) :
    mapMem (expandAll em pm).1 k = true := by
  unfold expandAll
  exact @foldl_inv (String × RouteEntry) (EntryMap × List RouteEntry)
    (fun x => mapMem x.1 k = true) expandOne pm (em, [])
    (fun _ _ _ hp => expandOne_exactMem hp) h

/-- A non-root prefix accumulator entry guarantees its stripped path is a key
of the final exact accumulator. -/
theorem expandAll_est {em pm : EntryMap} {p : String} {v : RouteEntry}
    (hmem : (p, v) ∈ pm) (hv : v.Match.prefixPath = p)
    (hne : trimRightSlash p ≠ "") :
    mapMem (expandAll em pm).1 (trimRightSlash p) = true := by
  unfold expandAll
  refine @foldl_est (String × RouteEntry) (EntryMap × List RouteEntry)
    (fun x => mapMem x.1 (trimRightSlash p) = true) expandOne (p, v) pm (em, [])
    hmem ?_ (fun _ _ _ hp => expandOne_exactMem hp)
  intro s
  have h0 : trimRightSlash ((p, v).2.Match.prefixPath) ≠ "" := by
    show trimRightSlash v.Match.prefixPath ≠ ""
    rw [hv]
    exact hne
  have h1 := @expandOne_est s (p, v) h0
  have h2 : trimRightSlash ((p, v).2.Match.prefixPath) = trimRightSlash p := by
    show trimRightSlash v.Match.prefixPath = trimRightSlash p
    rw [hv]
  rw [h2] at h1
  exact h1

/-- Every output entry of the expansion pass is exact-empty and carries a
prefix path ending in exactly one trailing slash. -/
theorem expandAll_out_shape {em pm : EntryMap}
    (hpm : ∀ kv ∈ pm, kv.2.Match.exactPath = "") :
    ∀ e ∈ (expandAll em pm).2,
      e.Match.exactPath = "" ∧ endsInExactlyOneSlash e.Match.prefixPath = true := by
  unfold expandAll
  refine @foldl_inv (String × RouteEntry) (EntryMap × List RouteEntry)
    (fun x => ∀ e ∈ x.2,
      e.Match.exactPath = "" ∧ endsInExactlyOneSlash e.Match.prefixPath = true)
    expandOne pm (em, []) ?_ ?_
  · intro s a ha hp
    rw [expandOne_out]
    intro e he
    rcases List.mem_append.mp he with he | he
    · exact hp e he
    · simp at he
      subst he
      exact ⟨hpm a ha, endsInExactlyOneSlash_trim_append _⟩
  · intro e he
    cases he

/-- Every prefix accumulator entry yields its rewritten form among the
expansion output entries. -/
theorem expandAll_out_mem {em pm : EntryMap} {p : String} {v : RouteEntry}
    (hmem : (p, v) ∈ pm) :
    ∃ e, e ∈ (expandAll em pm).2 ∧
      e.Match.prefixPath = trimRightSlash v.Match.prefixPath ++ "/" ∧
      e.Action = v.Action := by
  unfold expandAll
  refine @foldl_est (String × RouteEntry) (EntryMap × List RouteEntry)
    (fun x => ∃ e, e ∈ x.2 ∧
      e.Match.prefixPath = trimRightSlash v.Match.prefixPath ++ "/" ∧
      e.Action = v.Action)
    expandOne (p, v) pm (em, []) hmem ?_ ?_
  · intro s
    refine ⟨{ v with Match := { v.Match with prefixPath := trimRightSlash v.Match.prefixPath ++ "/" } }, ?_, rfl, rfl⟩
    rw [expandOne_out]
    exact List.mem_append_right _ (List.mem_singleton.mpr rfl)
  · intro s a _ hp
    obtain ⟨e, he, h1, h2⟩ := hp
    refine ⟨e, ?_, h1, h2⟩
    rw [expandOne_out]
    exact List.mem_append_left _ he

/-- Unfolding equation of the produced entry list. -/
theorem buildEntries_eq (grs : List GatewayRoute) :
    buildEntries grs =
      (classifyAll grs).entries ++
        (expandAll (classifyAll grs).exactEntries (classifyAll grs).prefixEntries).2 ++
        mapValues (expandAll (classifyAll grs).exactEntries (classifyAll grs).prefixEntries).1 := rfl

/-! ## Claims about the metadata decoder -/

/-- C1: the claim states that `DataplaneMetadataFromXdsMetadata` returns a
usable record without raising for every input, including a malformed embedded
resource value.  The code violates this: when `rest.UnmarshallToCore` fails,
the type switch runs on a nil resource interface and its default branch
evaluates `r.Descriptor().Name`, a nil dereference panic.  This theorem
evaluates the embedded decoder at the failing input: the nil input indeed
decodes to the zero record, but the malformed resource value aborts with the
modelled panic instead of a record with the field left empty. -/
theorem DataplaneMetadataFromXdsMetadata_malformed_resource_panics :
    DataplaneMetadataFromXdsMetadata none = Except.ok {} ∧
    DataplaneMetadataFromXdsMetadata
        (some [(fieldDataplaneDataplaneResource, PbValue.stringValue "not a resource")]) =
      Except.error goNilDereferenceMsg := by
  constructor
  · rfl
  · rfl

/-- C10: in `uint32Metadata`, every value string accepted by `strconv.Atoi`
yields the parsed integer reduced modulo `2 ^ 32` (so "-1" yields 4294967295
and "4294967296" yields 0), and only a string rejected by the parser yields
the zero value. -/
theorem uint32Metadata_mod_two_pow_32 :
    (∀ (fields : List (String × PbValue)) (f s : String) (n : Int),
        pbLookup fields f = some (PbValue.stringValue s) →
        goAtoi s = some n →
        uint32Metadata fields f = (n % 4294967296).toNat) ∧
    (∀ (fields : List (String × PbValue)) (f s : String),
        pbLookup fields f = some (PbValue.stringValue s) →
        goAtoi s = none →
        uint32Metadata fields f = 0) ∧
    uint32Metadata [(fieldDataplaneAdminPort, PbValue.stringValue "-1")]
        fieldDataplaneAdminPort = 4294967295 ∧
    uint32Metadata [(fieldDataplaneAdminPort, PbValue.stringValue "4294967296")]
        fieldDataplaneAdminPort = 0 := by
  refine ⟨?_, ?_, ?_, ?_⟩
  · intro fields f s n hl ha
    simp [uint32Metadata, hl, PbValue.getStringValue, ha]
  · intro fields f s hl ha
    simp [uint32Metadata, hl, PbValue.getStringValue, ha]
  · rfl
  · rfl

/-- Witness for C10: the general modular-reduction statement applied at the
concrete field map holding the string "-1". -/
theorem uint32Metadata_mod_two_pow_32_witness :
    uint32Metadata [("dataplane.admin.port", PbValue.stringValue "-1")]
        "dataplane.admin.port" = ((-1 : Int) % 4294967296).toNat :=
  uint32Metadata_mod_two_pow_32.1
    [("dataplane.admin.port", PbValue.stringValue "-1")]
    "dataplane.admin.port" "-1" (-1) (by rfl) (by rfl)

/-! ## Claims about the TLS synthesizer -/

/-- C2: with mesh mTLS disabled, both downstream and upstream synthesis
return the explicit absent result - no context object and no error - never a
context object with empty certificate fields. -/
theorem tls_disabled_yields_absent :
    ∀ (ctx : XdsContext) (svc sni : String), ctx.mtlsEnabled = false →
      CreateDownstreamTlsContext ctx = Except.ok none ∧
      CreateUpstreamTlsContext ctx svc sni = Except.ok none := by
  intro ctx svc sni h
  constructor
  · simp [CreateDownstreamTlsContext, h]
  · simp [CreateUpstreamTlsContext, h]

/-- Witness for C2 at a concrete disabled-mTLS mesh context. -/
theorem tls_disabled_yields_absent_witness :
    CreateDownstreamTlsContext { meshName := "default", mtlsEnabled := false } =
        Except.ok none ∧
    CreateUpstreamTlsContext { meshName := "default", mtlsEnabled := false }
        "backend" "backend.mesh" = Except.ok none :=
  tls_disabled_yields_absent { meshName := "default", mtlsEnabled := false }
    "backend" "backend.mesh" rfl

/-- Strings with a common leading part are equal only if the trailing parts
are. -/
theorem string_append_left_cancel {a s t : String} (h : a ++ s = a ++ t) : s = t := by
  have hd : a.data ++ s.data = a.data ++ t.data := by
    have := congrArg String.data h
    simpa [String.data_append] using this
  have hst : s.data = t.data := List.append_cancel_left hd
  cases s
  cases t
  exact congrArg String.mk hst

/-- C5: with mesh mTLS enabled, wildcard-target upstream synthesis verifies
against the same mesh-wide identity namespace matcher as downstream
synthesis, concrete-target upstream synthesis verifies against the exact
mesh+service identity matcher, and for two distinct service names in one mesh
those exact matchers are never equal. -/
theorem upstream_matcher_selection :
    ∀ (ctx : XdsContext) (sni svc s1 s2 : String),
      ctx.mtlsEnabled = true → svc ≠ "*" → s1 ≠ s2 →
      upstreamSANMatchers (CreateUpstreamTlsContext ctx "*" sni) =
        downstreamSANMatchers (CreateDownstreamTlsContext ctx) ∧
      upstreamSANMatchers (CreateUpstreamTlsContext ctx "*" sni) =
        [MeshSpiffeIDPrefixMatcher ctx.meshName] ∧
      upstreamSANMatchers (CreateUpstreamTlsContext ctx svc sni) =
        [ServiceSpiffeIDMatcher ctx.meshName svc] ∧
      ServiceSpiffeIDMatcher ctx.meshName s1 ≠ ServiceSpiffeIDMatcher ctx.meshName s2 := by
  intro ctx sni svc s1 s2 hmtls hsvc hs
  refine ⟨?_, ?_, ?_, ?_⟩
  · simp [CreateUpstreamTlsContext, CreateDownstreamTlsContext, hmtls,
      createCommonTlsContext, upstreamSANMatchers, downstreamSANMatchers]
  · simp [CreateUpstreamTlsContext, hmtls, createCommonTlsContext, upstreamSANMatchers]
  · simp [CreateUpstreamTlsContext, hmtls, hsvc, createCommonTlsContext, upstreamSANMatchers]
  · intro hEq
    apply hs
    have hids : ServiceSpiffeID ctx.meshName s1 = ServiceSpiffeID ctx.meshName s2 := by
      simpa [ServiceSpiffeIDMatcher] using hEq
    exact string_append_left_cancel hids

/-- Witness for C5 at a concrete enabled-mTLS mesh with two distinct
services. -/
theorem upstream_matcher_selection_witness :
    upstreamSANMatchers
        (CreateUpstreamTlsContext { meshName := "default", mtlsEnabled := true } "*" "sni") =
      downstreamSANMatchers
        (CreateDownstreamTlsContext { meshName := "default", mtlsEnabled := true }) ∧
    ServiceSpiffeIDMatcher "default" "web" ≠ ServiceSpiffeIDMatcher "default" "backend" := by
  have h := upstream_matcher_selection { meshName := "default", mtlsEnabled := true }
    "sni" "web" "web" "backend" rfl (by decide) (by decide)
  exact ⟨h.1, h.2.2.2⟩

/-! ## Claims about the gateway route table builder -/

/-- Helper: a classification step on an Other-kind match only appends. -/
theorem classifyOne_other_eq {entry : RouteEntry} {st : GenState} {m : HttpMatch}
    (h1 : (makeRouteMatch m).exactPath = "") (h2 : (makeRouteMatch m).prefixPath = "") :
    classifyOne entry st m =
      { st with entries := st.entries ++ [{ entry with Match := makeRouteMatch m }] } := by
  rw [classifyOne_eq, if_neg (fun hc => hc h1), if_neg (fun hc => hc h2)]

/-- Helper: the classification fold over all-Other matches appends one entry
per match, in order, and touches nothing else. -/
theorem classify_fold_other (entry : RouteEntry) :
    ∀ (ms : List HttpMatch) (st : GenState),
      (∀ m ∈ ms, (makeRouteMatch m).exactPath = "" ∧ (makeRouteMatch m).prefixPath = "") →
      ms.foldl (classifyOne entry) st =
        { st with entries := st.entries ++ ms.map (fun m => { entry with Match := makeRouteMatch m }) } := by
  intro ms
  induction ms with
  | nil => intro st _; simp
  | cons a t ih =>
    intro st h
    have ha := h a (List.mem_cons_self a t)
    rw [List.foldl_cons, classifyOne_other_eq ha.1 ha.2,
      ih _ (fun m hm => h m (List.mem_cons_of_mem a hm))]
    simp

/-- C3: for every accepted prefix rule normalizing to a non-root path, the
produced route table holds exactly one Exact entry at the normalized path,
whether pre-existing or synthesized; and in Scenario A (prefix /foo in one
policy object, exact /foo in another, wildcard host) the output is exactly
one Exact entry at /foo plus one Prefix entry /foo/. -/
theorem gatewayRoute_exact_path_dedup :
    (∀ (hostname : String) (resources : List MeshResource) (g : GatewayRoute)
        (rule : HttpRule) (m : HttpMatch) (pv : String),
        g ∈ filterGatewayRoutes resources (acceptGatewayRoute hostname) →
        rule ∈ g.rules → m ∈ rule.Matches →
        m.path = some { kind := PathMatchKind.prefixKind, value := pv } →
        trimRightSlash pv ≠ "" →
        (buildEntries (filterGatewayRoutes resources (acceptGatewayRoute hostname))).countP
          (fun e => e.Match.exactPath == trimRightSlash pv) = 1) ∧
    scenarioAOut.countP (fun e => e.Match.exactPath == "/foo") = 1 ∧
    scenarioAOut.countP (fun e => e.Match.prefixPath == "/foo/") = 1 ∧
    scenarioAOut.length = 2 := by
  refine ⟨?_, by decide, by decide, by decide⟩
  intro hostname resources g rule m pv hg hr hm hpath htrim
  set grs := filterGatewayRoutes resources (acceptGatewayRoute hostname) with hgrs
  have hpv : pv ≠ "" := by
    intro hh
    rw [hh] at htrim
    exact htrim rfl
  obtain ⟨hex, hpre, hoth⟩ := classifyAll_wf grs
  have hmem0 := classifyAll_prefixEst hg hr hm hpath hpv
  obtain ⟨v, hv⟩ := exists_of_mapMem hmem0
  have hvp : v.Match.prefixPath = pv := (hpre.2 (pv, v) hv).1
  have hfin := @expandAll_est (classifyAll grs).exactEntries (classifyAll grs).prefixEntries
    pv v hv hvp htrim
  have hfwf := @expandAll_exactWF (classifyAll grs).exactEntries
    (classifyAll grs).prefixEntries hex
  rw [buildEntries_eq, List.countP_append, List.countP_append]
  have c1 : (classifyAll grs).entries.countP
      (fun e => e.Match.exactPath == trimRightSlash pv) = 0 := by
    rw [List.countP_eq_zero]
    intro e he hc
    have h0 := (hoth e he).1
    rw [h0] at hc
    exact htrim (eq_of_beq hc).symm
  have c2 : ((expandAll (classifyAll grs).exactEntries (classifyAll grs).prefixEntries).2).countP
      (fun e => e.Match.exactPath == trimRightSlash pv) = 0 := by
    rw [List.countP_eq_zero]
    intro e he hc
    have h0 := (expandAll_out_shape (fun kv hkv => (hpre.2 kv hkv).2.1) e he).1
    rw [h0] at hc
    exact htrim (eq_of_beq hc).symm
  have c3 : (mapValues (expandAll (classifyAll grs).exactEntries
      (classifyAll grs).prefixEntries).1).countP
      (fun e => e.Match.exactPath == trimRightSlash pv) = 1 := by
    rw [countP_mapValues_exact hfwf, if_pos (mapMem_iff_keys.mp hfin)]
  rw [c1, c2, c3]

/-- Witness for C3: the general count statement applied at the Scenario A
input. -/
theorem gatewayRoute_exact_path_dedup_witness :
    (buildEntries (filterGatewayRoutes scenarioAResources
        (acceptGatewayRoute WildcardHostname))).countP
      (fun e => e.Match.exactPath == trimRightSlash "/foo") = 1 := by
  have hf : filterGatewayRoutes scenarioAResources (acceptGatewayRoute WildcardHostname) =
      [sampleRouteOne, sampleRouteTwo] := rfl
  refine gatewayRoute_exact_path_dedup.1 WildcardHostname scenarioAResources sampleRouteOne
    sampleRuleOne samplePrefixFooMatch "/foo" ?_ ?_ ?_ rfl (by decide)
  · rw [hf]
    exact List.mem_cons_self _ _
  · exact List.mem_singleton.mpr rfl
  · exact List.mem_singleton.mpr rfl

/-- C4: every Prefix entry the builder appends to the output carries a path
ending in exactly one trailing slash, however many trailing slashes the
declared prefix path had. -/
theorem gatewayRoute_prefix_entry_single_slash :
    ∀ (grs : List GatewayRoute), ∀ e ∈ buildEntries grs,
      e.Match.prefixPath ≠ "" → endsInExactlyOneSlash e.Match.prefixPath = true := by
  intro grs e he hne
  obtain ⟨hex, hpre, hoth⟩ := classifyAll_wf grs
  rw [buildEntries_eq] at he
  rcases List.mem_append.mp he with he1 | he1
  · rcases List.mem_append.mp he1 with he2 | he2
    · exact absurd (hoth e he2).2 hne
    · exact (expandAll_out_shape (fun kv hkv => (hpre.2 kv hkv).2.1) e he2).2
  · have hfwf := @expandAll_exactWF (classifyAll grs).exactEntries
      (classifyAll grs).prefixEntries hex
    simp only [mapValues] at he1
    obtain ⟨kv, hkv, hkve⟩ := List.mem_map.mp he1
    have h0 : kv.2.Match.prefixPath = "" := (hfwf.2 kv hkv).2.1
    exact absurd (hkve ▸ h0) hne

/-- Witness for C4: the single-slash statement at a concrete one-rule input. -/
theorem gatewayRoute_prefix_entry_single_slash_witness :
    endsInExactlyOneSlash
      (({ Match := { prefixPath := "/x/" } } : RouteEntry)).Match.prefixPath = true := by
  have hlist : buildEntries [sampleSlashRoute] =
      [({ Match := { prefixPath := "/x/" } } : RouteEntry),
       ({ Match := { exactPath := "/x" } } : RouteEntry)] := rfl
  refine gatewayRoute_prefix_entry_single_slash [sampleSlashRoute] _ ?_ (by decide)
  rw [hlist]
  exact List.mem_cons_self _ _

/-- C6 counterexample: `GenerateHost` returns the identical `(nil, nil)` pair
when no candidate route is accepted, when an accepted route yields entries,
and when an accepted route yields zero entries - so the claimed return-value
signal distinguishing "nothing applicable" from a produced result does not
exist in the code. -/
theorem generateHost_signal_counterexample :
    (GenerateHost WildcardHostname [] []).1 = [] ∧
    (GenerateHost WildcardHostname [MeshResource.gatewayRoute sampleRouteOne] []).1.length = 2 ∧
    (GenerateHost WildcardHostname [] []).2 =
      (GenerateHost WildcardHostname [MeshResource.gatewayRoute sampleRouteOne] []).2 ∧
    (GenerateHost WildcardHostname [MeshResource.gatewayRoute { rules := [] }] []).1 = [] ∧
    (GenerateHost WildcardHostname [MeshResource.gatewayRoute { rules := [] }] []).2 =
      (GenerateHost WildcardHostname [MeshResource.gatewayRoute sampleRouteOne] []).2 := by
  refine ⟨rfl, rfl, rfl, rfl, rfl⟩

/-- C6 as amended: `GenerateHost` returns `(nil, nil)` on every path; the
early return for an empty accepted route list is observable only through the
route table accumulator being left unchanged, not through the return value. -/
theorem generateHost_signal_amended :
    ∀ (hostname : String) (resources : List MeshResource) (table : List RouteEntry),
      (GenerateHost hostname resources table).2 = (none, none) ∧
      (filterGatewayRoutes resources (acceptGatewayRoute hostname) = [] →
        (GenerateHost hostname resources table).1 = table) := by
  intro hostname resources table
  constructor
  · unfold GenerateHost
    by_cases hc : (filterGatewayRoutes resources (acceptGatewayRoute hostname)).length = 0
    · simp [hc]
    · simp [hc]
  · intro hempty
    unfold GenerateHost
    simp [hempty]

/-- Witness for the amended C6 at a concrete input with no gateway route. -/
theorem generateHost_signal_amended_witness :
    (GenerateHost WildcardHostname [MeshResource.otherResource "Mesh"] []).2 = (none, none) ∧
    (GenerateHost WildcardHostname [MeshResource.otherResource "Mesh"] []).1 = [] :=
  ⟨(generateHost_signal_amended WildcardHostname [MeshResource.otherResource "Mesh"] []).1,
   (generateHost_signal_amended WildcardHostname [MeshResource.otherResource "Mesh"] []).2 rfl⟩

/-- C7: an accepted prefix rule whose path normalizes to the bare root
produces the rewritten root Prefix entry but never a synthesized Exact
duplicate - the final exact accumulator holds no key for it (its keys are
all nonempty). -/
theorem gatewayRoute_root_no_synth_exact :
    ∀ (hostname : String) (resources : List MeshResource) (g : GatewayRoute)
      (rule : HttpRule) (m : HttpMatch) (pv : String),
      g ∈ filterGatewayRoutes resources (acceptGatewayRoute hostname) →
      rule ∈ g.rules → m ∈ rule.Matches →
      m.path = some { kind := PathMatchKind.prefixKind, value := pv } →
      pv ≠ "" → trimRightSlash pv = "" →
      (∃ e ∈ buildEntries (filterGatewayRoutes resources (acceptGatewayRoute hostname)),
        e.Match.prefixPath = "/") ∧
      ∀ kv ∈ (expandAll
          (classifyAll (filterGatewayRoutes resources (acceptGatewayRoute hostname))).exactEntries
          (classifyAll (filterGatewayRoutes resources (acceptGatewayRoute hostname))).prefixEntries).1,
        kv.1 ≠ "" := by
  intro hostname resources g rule m pv hg hr hm hpath hpv htrim
  set grs := filterGatewayRoutes resources (acceptGatewayRoute hostname) with hgrs
  obtain ⟨hex, hpre, hoth⟩ := classifyAll_wf grs
  constructor
  · have hmem0 := classifyAll_prefixEst hg hr hm hpath hpv
    obtain ⟨v, hv⟩ := exists_of_mapMem hmem0
    have hvp : v.Match.prefixPath = pv := (hpre.2 (pv, v) hv).1
    obtain ⟨e, he, hep, _⟩ := @expandAll_out_mem (classifyAll grs).exactEntries
      (classifyAll grs).prefixEntries pv v hv
    refine ⟨e, ?_, ?_⟩
    · rw [buildEntries_eq]
      exact List.mem_append_left _ (List.mem_append_right _ he)
    · rw [hep, hvp, htrim]
      rfl
  · intro kv hkv
    exact ((@expandAll_exactWF (classifyAll grs).exactEntries
      (classifyAll grs).prefixEntries hex).2 kv hkv).2.2

/-- Witness for C7: the root-prefix statement at the concrete route whose
only rule declares the prefix path of two slashes. -/
theorem gatewayRoute_root_no_synth_exact_witness :
    ∃ e ∈ buildEntries (filterGatewayRoutes [MeshResource.gatewayRoute sampleRootRoute]
        (acceptGatewayRoute WildcardHostname)),
      e.Match.prefixPath = "/" := by
  have hf : filterGatewayRoutes [MeshResource.gatewayRoute sampleRootRoute]
      (acceptGatewayRoute WildcardHostname) = [sampleRootRoute] := rfl
  refine (gatewayRoute_root_no_synth_exact WildcardHostname
    [MeshResource.gatewayRoute sampleRootRoute] sampleRootRoute sampleRootRule
    sampleRootMatch "//" ?_ ?_ ?_ rfl (by decide) (by decide)).1
  · rw [hf]
    exact List.mem_cons_self _ _
  · exact List.mem_singleton.mpr rfl
  · exact List.mem_singleton.mpr rfl

/-- C8: a rule whose match alternatives all classify as Other produces one
separate output entry per alternative, in order, each carrying the rule's
shared payload, with no merging or deduplication; Scenario B (header X=1 and
method GET sharing one forward action) yields two Other entries with the
shared action. -/
theorem gatewayRoute_other_entries_no_merge :
    (∀ (hostnames2 : List String) (rule : HttpRule),
      (∀ m ∈ rule.Matches,
        (makeRouteMatch m).exactPath = "" ∧ (makeRouteMatch m).prefixPath = "") →
      buildEntries [{ hostnames := hostnames2, rules := [rule] }] =
        rule.Matches.map (fun m => { makeRouteEntry rule with Match := makeRouteMatch m })) ∧
    scenarioBOut.length = 2 ∧
    (∀ e ∈ scenarioBOut, e.Action = (makeRouteEntry sampleOtherRule).Action) ∧
    scenarioBOut.map (fun e => e.Match.method) = ["", "GET"] ∧
    scenarioBOut.map (fun e => e.Match.exactHeader) = [[{ name := "X", value := "1" }], []] := by
  refine ⟨?_, by decide, by decide, by decide, by decide⟩
  intro hostnames2 rule h
  have h1 : classifyAll [{ hostnames := hostnames2, rules := [rule] }] =
      { exactEntries := [], prefixEntries := [],
        entries := rule.Matches.map
          (fun m => { makeRouteEntry rule with Match := makeRouteMatch m }) } := by
    show classifyRule {} rule = _
    unfold classifyRule
    rw [classify_fold_other (makeRouteEntry rule) rule.Matches {} h]
    rfl
  rw [buildEntries_eq, h1]
  simp [expandAll, mapValues]

/-- Witness for C8: the statement applied at the Scenario B rule. -/
theorem gatewayRoute_other_entries_no_merge_witness :
    buildEntries [{ hostnames := [], rules := [sampleOtherRule] }] =
      sampleOtherRule.Matches.map
        (fun m => { makeRouteEntry sampleOtherRule with Match := makeRouteMatch m }) :=
  gatewayRoute_other_entries_no_merge.1 [] sampleOtherRule (by decide)

/-- C9: a rule declaring a concrete method M produces an entry whose method
predicate accepts exactly M among the nine verbs, while the NONE sentinel
produces an entry accepting every verb. -/
theorem gatewayRoute_method_matching :
    ∀ (rm : HttpMatch) (M req : MethodKind),
      M ≠ MethodKind.NONE → req ≠ MethodKind.NONE →
      (rm.method = M →
        (methodMatches (makeRouteMatch rm).method req = true ↔ req = M)) ∧
      (rm.method = MethodKind.NONE →
        methodMatches (makeRouteMatch rm).method req = true) := by
  intro rm M req hM hreq
  constructor
  · intro hrm
    rw [makeRouteMatch_method, hrm, if_neg hM]
    cases M <;> cases req <;>
      first
        | exact absurd rfl hM
        | exact absurd rfl hreq
        | decide
  · intro hrm
    rw [makeRouteMatch_method, hrm, if_pos rfl]
    rfl

/-- Witness for C9: the concrete GET-only match accepts GET. -/
theorem gatewayRoute_method_matching_witness :
    methodMatches (makeRouteMatch sampleGetMatch).method MethodKind.GET = true :=
  ((gatewayRoute_method_matching sampleGetMatch MethodKind.GET MethodKind.GET
    (by decide) (by decide)).1 rfl).mpr rfl

end KumaSpec
